import Mathlib

/-!
Verification development for the epilogic DMN-to-document converter.

The JavaScript sources are embedded shallowly:
* strings are Lean `String`s; character-level algorithms work on `List Char`
  (the `data` of a `String`);
* JavaScript truthiness on strings (`s || t`) is modelled by `jsOr`
  (the empty string is the only falsy string that occurs);
* `String.prototype.trim` is modelled by `jsTrim` (drop whitespace at both
  ends);
* `String.prototype.includes` / first-occurrence `split`+`join` are modelled
  by `containsSub` / `splitFirst` on character lists;
* DOM documents are modelled by records holding the attribute and text
  values the source reads (`getAttribute` results are `Option String`,
  `null` being `none`).
-/

namespace Epilogic

/-- JavaScript `a || b` for strings: the empty string is falsy. -/
def jsOr (a b : String) : String :=
  if a = "" then b else a

/-- JavaScript truthiness of a possibly-absent string attribute/field. -/
def jsTruthy (o : Option String) : Bool :=
  match o with
  | some s => s ≠ ""
  | none => false

/-- JavaScript template-literal rendering of a possibly-`null` value
(`null` prints as the string `null`). -/
def jsShow (o : Option String) : String :=
  match o with
  | some s => s
  | none => "null"

/-- Drop whitespace at both ends of a character list (right end first, so the
final operation is a left `dropWhile`). Model of JavaScript
`String.prototype.trim`. -/
def trimChars (cs : List Char) : List Char :=
  ((cs.reverse.dropWhile Char.isWhitespace).reverse).dropWhile Char.isWhitespace

/-- Model of JavaScript `String.prototype.trim`. -/
def jsTrim (s : String) : String :=
  String.mk (trimChars s.toList)

/-- Does `s` contain `kw` as a contiguous substring?  Model of JavaScript
`String.prototype.includes`. -/
def containsSub (kw : List Char) : List Char → Bool
  | [] => kw.isPrefixOf []
  | c :: rest => kw.isPrefixOf (c :: rest) || containsSub kw rest

/-- Split at the first (leftmost) occurrence of `kw`: returns the part
strictly before the occurrence and the part strictly after it.  When `kw`
does not occur, returns `(s, [])`.  This models the JavaScript idiom
`parts = s.split(kw); [parts[0], parts.slice(1).join(kw)]`. -/
def splitFirst (kw : List Char) : List Char → List Char × List Char
  | [] => ([], [])
  | c :: rest =>
    if kw.isPrefixOf (c :: rest) then ([], (c :: rest).drop kw.length)
    else
      let p := splitFirst kw rest
      (c :: p.1, p.2)

/-- Model of JavaScript `s.includes(pat)` on `String`s. -/
def strContains (s pat : String) : Bool :=
  containsSub pat.toList s.toList

/-- Model of JavaScript `s.split(c)` for a single-character separator, at
the character-list level (structural, so it evaluates in proofs):
`[] ↦ [[]]`, and a separator character opens a new (initially empty)
chunk. -/
def splitChar (sep : Char) : List Char → List (List Char)
  | [] => [[]]
  | c :: rest =>
    if c = sep then [] :: splitChar sep rest
    else
      match splitChar sep rest with
      | [] => [[c]]
      | l :: ls => (c :: l) :: ls

/-- Model of JavaScript `s.split('\n')`. -/
def jsSplitNewline (s : String) : List String :=
  (splitChar (Char.ofNat 10) s.toList).map String.mk

/-- Model of JavaScript `s.startsWith(pre)`. -/
def strStartsWith (s pre : String) : Bool :=
  pre.toList.isPrefixOf s.toList

/-- Model of JavaScript `s.substring(n)` (drop the first `n` UTF-16
units; only ASCII-and-BMP prefixes occur here, so characters). -/
def strDrop (s : String) (n : Nat) : String :=
  String.mk (s.toList.drop n)

/-- Model of JavaScript `s.replace(pat, '')` (first occurrence only). -/
def replaceFirst (s pat : String) : String :=
  if containsSub pat.toList s.toList then
    let p := splitFirst pat.toList s.toList
    String.mk (p.1 ++ p.2)
  else s

/-! ## Tabular Renderer (`src/markdown-generator.js`) -/

/-- `input` column spec of a decision table (`extractDecisionTable`). -/
structure InputSpec where
  id : String
  label : String
  expression : String
deriving DecidableEq

/-- `output` column spec of a decision table (`extractDecisionTable`). -/
structure OutputSpec where
  id : String
  label : String
  name : String
deriving DecidableEq

/-- One rule of a decision table: input entry texts then output entry
texts, in document order. -/
structure Rule where
  inputEntries : List String
  outputEntries : List String
deriving DecidableEq

/-- A decision table (`extractDecisionTable` result). -/
structure DecisionTable where
  inputs : List InputSpec
  outputs : List OutputSpec
  rules : List Rule
deriving DecidableEq

/-- `padCell` from `markdown-generator.js`: right-pad `text` with spaces to
`width` (no-op when the text is already at least that wide). -/
def padCell (text : String) (width : Nat) : String :=
  text ++ String.mk (List.replicate (width - text.length) ' ')

/-- The in-place update loop of `calculateColumnWidths`: for every cell at
an index that has a column (`i < widths.length`), take the max of the
current width and the cell's length; cells beyond the widths list are
ignored, widths beyond the cells list are kept. -/
def updateWidths : List Nat → List String → List Nat
  | ws, [] => ws
  | [], _ => []
  | w :: ws, c :: cs => Nat.max w c.length :: updateWidths ws cs

/-- `calculateColumnWidths` from `markdown-generator.js`: start from the
header lengths and fold every rule's concatenated cell list through
`updateWidths`. -/
def calculateColumnWidths (headers : List String) (rules : List Rule) : List Nat :=
  rules.foldl (fun ws rule => updateWidths ws (rule.inputEntries ++ rule.outputEntries)) (headers.map String.length)

/-- `cells.map((c, i) => padCell(c, widths[i]))`: every cell is padded with
its column's width; a cell whose index has no column (`widths[i]` is
`undefined`, hence `' '.repeat(NaN) = ''`) is emitted unchanged. -/
def padRow : List String → List Nat → List String
  | [], _ => []
  | c :: cs, [] => c :: padRow cs []
  | c :: cs, w :: ws => padCell c w :: padRow cs ws

/-- `'| ' + cells.join(' | ') + ' |\n'` -/
def renderRow (cells : List String) : String :=
  "| " ++ String.intercalate " | " cells ++ " |\n"

/-- Header labels of a decision table: input `label || id` then output
`label || name || id` (JS falsy-string fallback). -/
def headersOf (dt : DecisionTable) : List String :=
  dt.inputs.map (fun input => jsOr input.label input.id)
    ++ dt.outputs.map (fun output => jsOr output.label (jsOr output.name output.id))

/-- The padded cell list of the header row. -/
def headerCells (dt : DecisionTable) : List String :=
  padRow (headersOf dt) (calculateColumnWidths (headersOf dt) dt.rules)

/-- The padded cell list of one rule's row. -/
def ruleCells (dt : DecisionTable) (rule : Rule) : List String :=
  padRow (rule.inputEntries ++ rule.outputEntries) (calculateColumnWidths (headersOf dt) dt.rules)

/-- The separator row cells: `widths.map(w => '-'.repeat(w))`. -/
def separatorCells (dt : DecisionTable) : List String :=
  (calculateColumnWidths (headersOf dt) dt.rules).map (fun w => String.mk (List.replicate w '-'))

/-- `generateDecisionTableMarkdown` from `markdown-generator.js`. -/
def generateDecisionTableMarkdown (decisionTable : Option DecisionTable) (decisionName : String) : String :=
  match decisionTable with
  | none => ""
  | some dt =>
    "## " ++ decisionName ++ "\n\n"
      ++ renderRow (headerCells dt)
      ++ renderRow (separatorCells dt)
      ++ String.join (dt.rules.map (fun rule => renderRow (ruleCells dt rule)))
      ++ "\n"

/-- Byte-free helper used in statements: the positions (character indices)
of the pipe characters of a line. -/
def pipePositions (s : String) : List Nat :=
  (s.toList.enum).filterMap (fun p => if p.2 = '|' then some p.1 else none)

/-- Number of pipe characters in a string. -/
def pipeCount (s : String) : Nat :=
  s.toList.countP (fun c => c = '|')

/-! ## Metadata Extractor and Model Assembler (`src/dmn-parser.js`) -/

/-- The `extensionElements > metadata` container: raw (untrimmed) text
content of each of the five recognized child elements, `none` when the
child element is absent. -/
structure MetaContainer where
  krankheit : Option String
  erreger : Option String
  stand : Option String
  version : Option String
  inkubationszeit : Option String
deriving DecidableEq

/-- The metadata mapping produced by `extractMetadata`: each recognized
field is either absent or bound to a trimmed string. -/
structure Metadata where
  krankheit : Option String
  erreger : Option String
  stand : Option String
  version : Option String
  inkubationszeit : Option String
deriving DecidableEq

/-- An `inputData` element: attributes as `getAttribute` results
(`none` = `null`), plus the raw text of its first `documentation` and
first `description` descendant. -/
structure InputDataEl where
  id : Option String
  name : Option String
  label : Option String
  documentation : Option String
  description : Option String
deriving DecidableEq

/-- A decision in extracted form (`extractDecisions` output shape):
`id`, `name`, `label` with their `|| ''` / `|| name` defaults applied,
`documentation` from the `documentation` element or the `description`
fallback (trimmed, `''` when both absent), the optional decision table,
and the `href` values collected from `informationRequirement` links. -/
structure Decision where
  id : String
  name : String
  label : String
  documentation : String
  decisionTable : Option DecisionTable
  informationRequirements : List String
deriving DecidableEq

/-- A parsed DMN document, shallowly: the optional metadata container, the
`inputData` elements in document order, and the decision elements in
document order in extracted form (the DOM walk of `extractDecisions` is
modelled by taking its output as the document's decision list). -/
structure DMNDoc where
  metadataContainer : Option MetaContainer
  inputData : List InputDataEl
  decisions : List Decision
deriving DecidableEq

/-- `extractMetadata` from `dmn-parser.js`: without a metadata container
the mapping is empty; otherwise each of the five recognized fields is the
trimmed text of the matching child element, omitted when absent. -/
def extractMetadata (doc : DMNDoc) : Metadata :=
  match doc.metadataContainer with
  | none => ⟨none, none, none, none, none⟩
  | some m =>
    ⟨m.krankheit.map jsTrim, m.erreger.map jsTrim, m.stand.map jsTrim,
     m.version.map jsTrim, m.inkubationszeit.map jsTrim⟩

/-- A legacy prose section: `label` attribute (`|| ''`) and trimmed
`documentation` text (`''` when absent). -/
structure Section where
  label : String
  documentation : String
deriving DecidableEq

/-- `extractSection` from `dmn-parser.js`: the first `inputData` element
whose `name` attribute equals `sectionName`, or `none`. -/
def extractSection (doc : DMNDoc) (sectionName : String) : Option Section :=
  (doc.inputData.find? (fun el => el.name = some sectionName)).map
    (fun el => ⟨el.label.getD "", (el.documentation.map jsTrim).getD ""⟩)

/-- One resolved information-requirement input of a decision: the raw
`name` attribute and the trimmed `description` text (`''` when absent). -/
structure ResolvedInput where
  name : Option String
  description : String
deriving DecidableEq

/-- The input-resolution loop shared verbatim by `buildKlinischesBildText`,
`buildLabordiagnostikText` and `buildEpidemiologieText`: strip the leading
`#` from each requirement href, look the id up among the `inputData`
elements, and drop hrefs that do not resolve. -/
def resolveInputs (doc : DMNDoc) (decision : Decision) : List ResolvedInput :=
  decision.informationRequirements.filterMap (fun ref =>
    let inputId := replaceFirst ref "#"
    (doc.inputData.find? (fun el => el.id = some inputId)).map
      (fun el => ⟨el.name, (el.description.map jsTrim).getD ""⟩))

/-- Render one enumerated input line fragment: `- name` or `• name`,
optionally `(description)`, then `,\n`. -/
def inputLine (bullet : String) (input : ResolvedInput) : String :=
  bullet ++ jsShow input.name
    ++ (if input.description ≠ "" then " (" ++ input.description ++ ")" else "")
    ++ ",\n"

/-- `buildKlinischesBildText` from `dmn-parser.js`. -/
def buildKlinischesBildText (doc : DMNDoc) (decision : Decision) : String :=
  let inputs := resolveInputs doc decision
  if inputs.isEmpty then "Klinisches Bild einer akuten Erkrankung"
  else
    let text := "Klinisches Bild einer akuten Campylobacter-Enteritis, definiert als mindestens eines der folgenden Kriterien:\n"
      ++ String.join (inputs.map (inputLine "- "))
    if text.endsWith ",\n" then text.dropRight 2 ++ "\nODER krankheitsbedingter Tod."
    else text

/-- `buildLabordiagnostikText` from `dmn-parser.js`. -/
def buildLabordiagnostikText (doc : DMNDoc) (decision : Decision) : String :=
  let inputs := resolveInputs doc decision
  if inputs.isEmpty then "Positiver Befund mit labordiagnostischer Methode"
  else
    jsTrim ("Positiver Befund mit mindestens einer der folgenden Methoden:\n[direkter Erregernachweis:]\n"
      ++ String.join (inputs.map (inputLine "- ")))

/-- `buildEpidemiologieText` from `dmn-parser.js`. -/
def buildEpidemiologieText (doc : DMNDoc) (decision : Decision) : String :=
  let inputs := resolveInputs doc decision
  if inputs.isEmpty then "Epidemiologische Bestätigung vorhanden"
  else
    jsTrim ("Epidemiologische Bestätigung, definiert als mindestens einer der folgenden Nachweise unter Berücksichtigung der Inkubationszeit:\n"
      ++ String.join (inputs.map (inputLine "• ")))

/-- The role lookups of `parseDMN`. -/
def findClinicalDecision (decisions : List Decision) : Option Decision :=
  decisions.find? (fun d => d.name = "Klinisches Bild" || d.name = "clinical_picture")

/-- See `findClinicalDecision`. -/
def findLabDecision (decisions : List Decision) : Option Decision :=
  decisions.find? (fun d => d.name = "Labordiagnostischer Nachweis" || d.name = "lab_evidence")

/-- See `findClinicalDecision`. -/
def findEpiDecision (decisions : List Decision) : Option Decision :=
  decisions.find? (fun d => d.name = "Epidemiologische Bestätigung" || d.name = "epi_confirmation")

/-- The classification lookup of `parseDMN` (exact names or the
`bermittlungsdefinition` substring match). -/
def findFallklassifikation (decisions : List Decision) : Option Decision :=
  decisions.find? (fun d =>
    d.name = "fallklassifikation" || d.name = "campylobacter_classification"
      || strContains d.name "bermittlungsdefinition")

/-- The legal-basis pair of sections. -/
structure GesetzlicheGrundlage where
  meldepflicht : Option Section
  uebermittlung : Option Section
deriving DecidableEq

/-- The normalized model assembled by `parseDMN`. -/
structure DMNData where
  metadata : Metadata
  klinischesBild : Option Section
  labordiagnostik : Option Section
  epidemiologie : Option Section
  fallkategorien : Option Decision
  zusatzinfo : Option Section
  referenzdefinition : Option Section
  gesetzlicheGrundlage : GesetzlicheGrundlage
  allDecisions : List Decision
deriving DecidableEq

/-- `parseDMN` from `dmn-parser.js` (console logging omitted). -/
def parseDMN (doc : DMNDoc) : DMNData :=
  let metadata := extractMetadata doc
  let decisions := doc.decisions
  let clinicalDecision := findClinicalDecision decisions
  let labDecision := findLabDecision decisions
  let epiDecision := findEpiDecision decisions
  let fallklassifikation := findFallklassifikation decisions
  let klinischesBild := match clinicalDecision with
    | some d => some ⟨"Klinisches Bild", buildKlinischesBildText doc d⟩
    | none => extractSection doc "klinisches_bild"
  let labordiagnostik := match labDecision with
    | some d => some ⟨"Labordiagnostischer Nachweis", buildLabordiagnostikText doc d⟩
    | none => extractSection doc "labordiagnostik"
  let epidemiologie := match epiDecision with
    | some d => some ⟨"Epidemiologische Bestätigung", buildEpidemiologieText doc d⟩
    | none => extractSection doc "epidemiologische_bestaetigung"
  let metadata := match epiDecision with
    | some d =>
      if d.documentation ≠ "" && strContains d.documentation "Inkubationszeit" then
        { metadata with inkubationszeit := some d.documentation }
      else metadata
    | none => metadata
  let zusatzinfo := match labDecision with
    | some d =>
      if d.documentation ≠ "" then some ⟨"Zusatzinformation", d.documentation⟩
      else extractSection doc "zusatzinformation"
    | none => extractSection doc "zusatzinformation"
  { metadata := metadata
    klinischesBild := klinischesBild
    labordiagnostik := labordiagnostik
    epidemiologie := epidemiologie
    fallkategorien := fallklassifikation
    zusatzinfo := zusatzinfo
    referenzdefinition := extractSection doc "referenzdefinition"
    gesetzlicheGrundlage :=
      ⟨extractSection doc "meldepflicht", extractSection doc "uebermittlung"⟩
    allDecisions := decisions }

/-! ## Document Renderer (`word-generator.js`)

Only the abstract block sequence handed to the external packager is
modelled; the `docx` `Document` construction and `Packer.toBlob` call are
the out-of-scope packaging collaborator.  A `TextRun` keeps its text and
its `bold` / `italics` flags; colors, sizes and spacings are styling
constants the claims do not mention. -/

/-- A `TextRun`: text with emphasis flags. -/
structure Run where
  text : String
  bold : Bool
  italics : Bool
deriving DecidableEq

/-- A plain (non-bold, non-italic) run. -/
def plainRun (text : String) : Run :=
  ⟨text, false, false⟩

/-- One abstract output block of the Document Renderer. -/
inductive Block where
  | title (runs : List Run)
  | heading (level : Nat) (runs : List Run)
  | para (runs : List Run)
  | bullet (level : Nat) (runs : List Run)
deriving DecidableEq

/-- `createBlueHeading` from `word-generator.js` (text as a single bold
run; color/size/spacing are styling constants). -/
def createBlueHeading (text : String) (level : Nat) : Block :=
  Block.heading level [⟨text, true, false⟩]

/-- `createTitle` from `word-generator.js`: disease name as a bold italic
run followed by ` (pathogen)` as an italic run. -/
def createTitle (krankheit erreger : String) : Block :=
  Block.title [⟨krankheit, true, true⟩, ⟨" (" ++ erreger ++ ")", false, true⟩]

/-- `createParagraph` from `word-generator.js` (run-list form; the
string form is `createParagraph [plainRun s]`). -/
def createParagraph (runs : List Run) : Block :=
  Block.para runs

/-- `createBullet` from `word-generator.js`. -/
def createBullet (runs : List Run) (level : Nat) : Block :=
  Block.bullet level runs

/-- The fixed ordered keyword list of `parseDocumentation`. -/
def boldKeywords : List String :=
  ["ODER", "mindestens einer", "mindestens eines", "mindestens eine", "definiert als"]

/-- One iteration of the `boldKeywords.forEach` loop of
`parseDocumentation`: when the remaining text contains the keyword, push
the part before its first occurrence as a plain run and the keyword as a
bold run, and continue with the part after it (`parts.slice(1).join(keyword)`
is exactly the text after the first occurrence). -/
def emphStep (acc : List Run × List Char) (kw : List Char) : List Run × List Char :=
  if containsSub kw acc.2 then
    let p := splitFirst kw acc.2
    (acc.1 ++ [plainRun (String.mk p.1), ⟨String.mk kw, true, false⟩], p.2)
  else acc

/-- The keyword-emphasis pass of `parseDocumentation` on one line: fold the
keywords over the line; if no keyword matched, the line is a single plain
run, otherwise the collected runs followed by the remaining text. -/
def emphasizeLine (line : String) : List Run :=
  let res := (boldKeywords.map String.toList).foldl emphStep ([], line.toList)
  if res.1 = [] then [plainRun line]
  else res.1 ++ [plainRun (String.mk res.2)]

/-- The sub-bullet test of `parseDocumentation`:
`line.match(/^\s+[-•]/)` — leading whitespace then a dash or bullet glyph. -/
def matchesSubBullet (line : String) : Bool :=
  let cs := line.toList
  let ws := cs.takeWhile Char.isWhitespace
  !ws.isEmpty &&
    (match cs.drop ws.length with
     | c :: _ => c = '-' || c = '•'
     | [] => false)

/-- `line.replace(/^\s+[-•]\s*/, '').trim()` of the sub-bullet branch. -/
def subBulletContent (line : String) : String :=
  let rest := line.toList.dropWhile Char.isWhitespace
  let rest := match rest with
    | c :: t => if c = '-' || c = '•' then t else rest
    | [] => rest
  jsTrim (String.mk (rest.dropWhile Char.isWhitespace))

/-- `parseDocumentation` from `word-generator.js`: split on line breaks,
trim each line, drop empty lines; a line starting with `- ` or `• `
becomes a first-level bullet, a line matching `/^\s+[-•]/` a second-level
bullet, any other line a paragraph with keyword emphasis. -/
def parseDocumentation (text : String) : List Block :=
  let lines := ((jsSplitNewline text).map jsTrim).filter (fun l => l ≠ "")
  lines.map (fun line =>
    if strStartsWith line "- " || strStartsWith line "• " then
      createBullet [plainRun (jsTrim (strDrop line 2))] 0
    else if matchesSubBullet line then
      createBullet [plainRun (subBulletContent line)] 1
    else
      createParagraph (emphasizeLine line))

/-- The canned category descriptions of `createFallkategorien`
(`categories[categoryLetter]`, `''` when the letter is not recognized,
matching the JS `undefined || …` fallthrough). -/
def categoriesStr (c : Char) : String :=
  if c = 'A' then "Klinisch diagnostizierte Erkrankung"
  else if c = 'B' then "Klinisch-epidemiologisch bestätigte Erkrankung"
  else if c = 'C' then "Klinisch-labordiagnostisch bestätigte Erkrankung"
  else if c = 'D' then "Labordiagnostisch nachgewiesene Infektion bei nicht erfülltem klinischen Bild"
  else if c = 'E' then "Labordiagnostisch nachgewiesene Infektion bei unbekanntem klinischen Bild"
  else ""

/-- The blocks `createFallkategorien` emits for the rule at `index`:
the label paragraph (letter `String.fromCharCode(65 + index)` and the
canned-or-first-output label, both bold), then, when a non-empty second
output entry exists, that entry as a paragraph. -/
def fallkategorieBlocks (index : Nat) (rule : Rule) : List Block :=
  let categoryLetter := Char.ofNat (65 + index)
  let categoryLabel := jsOr (categoriesStr categoryLetter) (rule.outputEntries.getD 0 "")
  Block.para [⟨String.mk [categoryLetter] ++ ". ", true, false⟩, ⟨categoryLabel, true, false⟩]
    :: (if rule.outputEntries.length > 1 && rule.outputEntries.getD 1 "" ≠ "" then
          [createParagraph [plainRun (rule.outputEntries.getD 1 "")]]
        else [])

/-- `createFallkategorien` from `word-generator.js`. -/
def createFallkategorien (fallkategorien : Option Decision) : List Block :=
  match fallkategorien with
  | none => []
  | some fk =>
    match fk.decisionTable with
    | none => []
    | some dt => (dt.rules.enum.map (fun p => fallkategorieBlocks p.1 p.2)).flatten

/-- `generateWordDocument` from `word-generator.js`: the ordered block
sequence handed to the packager. -/
def generateWordDocument (dmnData : DMNData) : List Block :=
  (if jsTruthy dmnData.metadata.krankheit && jsTruthy dmnData.metadata.erreger then
    [createTitle (dmnData.metadata.krankheit.getD "") (dmnData.metadata.erreger.getD "")]
   else [])
  ++ (match dmnData.klinischesBild with
      | some s => createBlueHeading "Klinisches Bild" 1 :: parseDocumentation s.documentation
      | none => [])
  ++ (match dmnData.labordiagnostik with
      | some s => createBlueHeading "Labordiagnostischer Nachweis" 1 :: parseDocumentation s.documentation
      | none => [])
  ++ (match dmnData.zusatzinfo with
      | some s =>
        if s.documentation ≠ "" then
          Block.para [⟨"Zusatzinformation", true, false⟩] :: parseDocumentation s.documentation
        else []
      | none => [])
  ++ (match dmnData.epidemiologie with
      | some s =>
        createBlueHeading "Epidemiologische Bestätigung" 1 :: parseDocumentation s.documentation
          ++ (if jsTruthy dmnData.metadata.inkubationszeit then
                [createParagraph [⟨"Inkubationszeit ", false, true⟩,
                                  plainRun (dmnData.metadata.inkubationszeit.getD "")]]
              else [])
      | none => [])
  ++ (createBlueHeading "Über die zuständige Landesbehörde an das RKI zu übermittelnder Fall" 1
        :: createFallkategorien dmnData.fallkategorien)
  ++ (match dmnData.referenzdefinition with
      | some s =>
        if s.documentation ≠ "" then
          createBlueHeading "Referenzdefinition" 1 :: parseDocumentation s.documentation
        else []
      | none => [])
  ++ [createBlueHeading "Gesetzliche Grundlage" 1]
  ++ (match dmnData.gesetzlicheGrundlage.meldepflicht with
      | some s => Block.para [⟨"Meldepflicht", true, false⟩] :: parseDocumentation s.documentation
      | none => [])
  ++ (match dmnData.gesetzlicheGrundlage.uebermittlung with
      | some s => Block.para [⟨"Übermittlung", true, false⟩] :: parseDocumentation s.documentation
      | none => [])

/-- Is a block a (blue) heading? -/
def isHeading (b : Block) : Bool :=
  match b with
  | Block.heading _ _ => true
  | _ => false

/-- Is a block a second-level bullet (the sub-bullet form)? -/
def isSubBullet (b : Block) : Bool :=
  match b with
  | Block.bullet 1 _ => true
  | _ => false

/-- Concatenated character content of a run list, in order. -/
def runsChars (runs : List Run) : List Char :=
  (runs.map (fun r => r.text.toList)).flatten

/-- The label-letter texts of the category enumeration: the first run text
of every paragraph block that carries two or more runs (label paragraphs
have two bold runs; description paragraphs have a single plain run). -/
def labelTexts (blocks : List Block) : List String :=
  blocks.filterMap (fun b =>
    match b with
    | Block.para (r :: _ :: _) => some r.text
    | _ => none)

/-- The run list carried by a block. -/
def runsOf (b : Block) : List Run :=
  match b with
  | Block.title rs => rs
  | Block.heading _ rs => rs
  | Block.para rs => rs
  | Block.bullet _ rs => rs

/-! ## Substring machinery lemmas -/

theorem splitFirst_append (kw : List Char) :
    ∀ s : List Char, containsSub kw s = true →
      (splitFirst kw s).1 ++ kw ++ (splitFirst kw s).2 = s := by
  intro s
  induction s with
  | nil =>
    intro h
    simp only [containsSub, List.isPrefixOf_iff_prefix, List.prefix_nil] at h
    simp [splitFirst, h]
  | cons c rest ih =>
    intro h
    by_cases hp : kw.isPrefixOf (c :: rest)
    · simp only [splitFirst, if_pos hp, List.nil_append]
      rw [List.isPrefixOf_iff_prefix] at hp
      obtain ⟨t, ht⟩ := hp
      rw [← ht, List.drop_left]
    · simp only [containsSub, hp, Bool.false_or] at h
      simp only [splitFirst, if_neg hp]
      have := ih h
      simpa using congrArg (c :: ·) this

theorem splitFirst_leftmost (kw : List Char) :
    ∀ (p s q : List Char), s = p ++ kw ++ q →
      (splitFirst kw s).1.length ≤ p.length := by
  intro p
  induction p with
  | nil =>
    intro s q h
    simp only [List.nil_append] at h
    subst h
    match hs : kw ++ q with
    | [] => simp [splitFirst]
    | c :: rest =>
      have hp : kw.isPrefixOf (c :: rest) := by
        rw [List.isPrefixOf_iff_prefix, ← hs]
        exact ⟨q, rfl⟩
      unfold splitFirst
      rw [if_pos hp]
  | cons a p' ih =>
    intro s q h
    subst h
    have hih := ih (p' ++ kw ++ q) q rfl
    simp only [List.append_assoc] at hih
    simp only [List.cons_append, List.append_assoc, List.length_cons]
    unfold splitFirst
    split
    · simp
    · simpa using Nat.succ_le_succ hih

theorem containsSub_of_eq (kw : List Char) :
    ∀ (p s q : List Char), s = p ++ kw ++ q → containsSub kw s = true := by
  intro p
  induction p with
  | nil =>
    intro s q h
    simp only [List.nil_append] at h
    subst h
    match hs : kw ++ q with
    | [] =>
      have : kw = [] := by
        cases kw with
        | nil => rfl
        | cons a t => simp at hs
      simp [containsSub, this]
    | c :: rest =>
      have hp : kw.isPrefixOf (c :: rest) := by
        rw [List.isPrefixOf_iff_prefix, ← hs]
        exact ⟨q, rfl⟩
      simp [containsSub, hp]
  | cons a p' ih =>
    intro s q h
    subst h
    simp only [List.cons_append, containsSub, Bool.or_eq_true]
    exact Or.inr (ih (p' ++ kw ++ q) q rfl)

theorem ne_nil_of_containsSub (kw s : List Char) (hkw : kw ≠ [])
    (h : containsSub kw s = true) : s ≠ [] := by
  intro hs
  subst hs
  simp only [containsSub, List.isPrefixOf_iff_prefix, List.prefix_nil, decide_eq_true_eq] at h
  exact hkw h

theorem takeWhile_dropWhile_nil (p : Char → Bool) :
    ∀ l : List Char, (l.dropWhile p).takeWhile p = [] := by
  intro l
  induction l with
  | nil => rfl
  | cons c t ih =>
    by_cases hc : p c
    · simpa [List.dropWhile, hc] using ih
    · simp [List.dropWhile, List.takeWhile, hc]

theorem trimChars_takeWhile (cs : List Char) :
    (trimChars cs).takeWhile Char.isWhitespace = [] := by
  unfold trimChars
  exact takeWhile_dropWhile_nil _ _

/-! ## Claim C9 -/

/-- C9: the Metadata Extractor is total and never fails: with no metadata
container it returns the empty mapping, and each of the five recognized
fields is either absent from the result or bound to that field's text
content trimmed of surrounding whitespace. -/
theorem extract_metadata_total (doc : DMNDoc) :
    (doc.metadataContainer = none → extractMetadata doc = ⟨none, none, none, none, none⟩) ∧
    ((extractMetadata doc).krankheit = none ∨ ∃ m raw,
      doc.metadataContainer = some m ∧ m.krankheit = some raw ∧
      (extractMetadata doc).krankheit = some (jsTrim raw)) ∧
    ((extractMetadata doc).erreger = none ∨ ∃ m raw,
      doc.metadataContainer = some m ∧ m.erreger = some raw ∧
      (extractMetadata doc).erreger = some (jsTrim raw)) ∧
    ((extractMetadata doc).stand = none ∨ ∃ m raw,
      doc.metadataContainer = some m ∧ m.stand = some raw ∧
      (extractMetadata doc).stand = some (jsTrim raw)) ∧
    ((extractMetadata doc).version = none ∨ ∃ m raw,
      doc.metadataContainer = some m ∧ m.version = some raw ∧
      (extractMetadata doc).version = some (jsTrim raw)) ∧
    ((extractMetadata doc).inkubationszeit = none ∨ ∃ m raw,
      doc.metadataContainer = some m ∧ m.inkubationszeit = some raw ∧
      (extractMetadata doc).inkubationszeit = some (jsTrim raw)) := by
  cases hd : doc.metadataContainer with
  | none =>
    refine ⟨fun _ => by simp [extractMetadata, hd], ?_, ?_, ?_, ?_, ?_⟩ <;>
      exact Or.inl (by simp [extractMetadata, hd])
  | some m =>
    refine ⟨fun h => by simp [hd] at h, ?_, ?_, ?_, ?_, ?_⟩
    · cases hk : m.krankheit with
      | none => exact Or.inl (by simp [extractMetadata, hd, hk])
      | some raw => exact Or.inr ⟨m, raw, rfl, hk, by simp [extractMetadata, hd, hk]⟩
    · cases hk : m.erreger with
      | none => exact Or.inl (by simp [extractMetadata, hd, hk])
      | some raw => exact Or.inr ⟨m, raw, rfl, hk, by simp [extractMetadata, hd, hk]⟩
    · cases hk : m.stand with
      | none => exact Or.inl (by simp [extractMetadata, hd, hk])
      | some raw => exact Or.inr ⟨m, raw, rfl, hk, by simp [extractMetadata, hd, hk]⟩
    · cases hk : m.version with
      | none => exact Or.inl (by simp [extractMetadata, hd, hk])
      | some raw => exact Or.inr ⟨m, raw, rfl, hk, by simp [extractMetadata, hd, hk]⟩
    · cases hk : m.inkubationszeit with
      | none => exact Or.inl (by simp [extractMetadata, hd, hk])
      | some raw => exact Or.inr ⟨m, raw, rfl, hk, by simp [extractMetadata, hd, hk]⟩

/-- Witness for C9 at a document without a metadata container. -/
theorem extract_metadata_total_witness :
    extractMetadata ⟨none, [], []⟩ = ⟨none, none, none, none, none⟩ :=
  (extract_metadata_total ⟨none, [], []⟩).1 rfl

/-! ## Claim C10 -/

theorem updateWidths_length (ws : List Nat) :
    ∀ cs : List String, (updateWidths ws cs).length = ws.length := by
  induction ws with
  | nil => intro cs; cases cs <;> rfl
  | cons w ws ih =>
    intro cs
    cases cs with
    | nil => rfl
    | cons c cs => simp [updateWidths, ih]

theorem updateWidths_take (ws : List Nat) :
    ∀ cs : List String, updateWidths ws (cs.take ws.length) = updateWidths ws cs := by
  induction ws with
  | nil => intro cs; cases cs <;> rfl
  | cons w ws ih =>
    intro cs
    cases cs with
    | nil => rfl
    | cons c cs => simp [updateWidths, ih]

/-- C10: in the column-width computation, cells of a rule at positions at
or beyond the number of header columns never influence any width: the
widths equal the widths computed from each rule truncated to the header
count. -/
theorem surplus_cells_no_influence (headers : List String) (rules : List Rule) :
    calculateColumnWidths headers rules =
      calculateColumnWidths headers
        (rules.map (fun r =>
          (⟨(r.inputEntries ++ r.outputEntries).take headers.length, []⟩ : Rule))) := by
  unfold calculateColumnWidths
  have aux : ∀ (rs : List Rule) (ws : List Nat), ws.length = headers.length →
      rs.foldl (fun ws rule => updateWidths ws (rule.inputEntries ++ rule.outputEntries)) ws =
      (rs.map (fun r =>
          (⟨(r.inputEntries ++ r.outputEntries).take headers.length, []⟩ : Rule))).foldl
        (fun ws rule => updateWidths ws (rule.inputEntries ++ rule.outputEntries)) ws := by
    intro rs
    induction rs with
    | nil => intro ws _; rfl
    | cons r rs ih =>
      intro ws h
      simp only [List.map_cons, List.foldl_cons]
      have h1 : updateWidths ws ((r.inputEntries ++ r.outputEntries).take headers.length ++ []) =
          updateWidths ws (r.inputEntries ++ r.outputEntries) := by
        rw [List.append_nil, ← h]
        exact updateWidths_take ws _
      rw [h1]
      exact ih _ (by rw [updateWidths_length, h])
  exact aux rules (headers.map String.length) (by simp)

/-! ## Claim C7 -/

/-- C7: for a clinical-picture-role decision none of whose
information-requirement hrefs resolves to an `inputData` element, the
synthesized section text is exactly the role's fixed generic fallback
sentence. -/
theorem klinisches_bild_fallback (doc : DMNDoc) (decision : Decision)
    (h : ∀ ref ∈ decision.informationRequirements,
      doc.inputData.find? (fun el => el.id = some (replaceFirst ref "#")) = none) :
    buildKlinischesBildText doc decision = "Klinisches Bild einer akuten Erkrankung" := by
  have hres : resolveInputs doc decision = [] := by
    rw [resolveInputs, List.filterMap_eq_nil_iff]
    intro ref href
    simp [h ref href]
  simp [buildKlinischesBildText, hres]

/-- Witness for C7: one unresolvable href. -/
theorem klinisches_bild_fallback_witness :
    buildKlinischesBildText
        ⟨none, [⟨some "i1", some "Fieber", none, none, none⟩], []⟩
        ⟨"d1", "Klinisches Bild", "Klinisches Bild", "", none, ["#missing"]⟩ =
      "Klinisches Bild einer akuten Erkrankung" :=
  klinisches_bild_fallback _ _ (by decide)

/-! ## Claim C8 -/

/-- C8: after per-role synthesis, if an epidemiological-confirmation
decision exists and its raw documentation contains `Inkubationszeit`, the
assembled model's `metadata.inkubationszeit` equals that entire
documentation string (replacing any value read from the metadata
container); if the documentation does not contain the term, the field is
the one the Metadata Extractor produced. -/
theorem inkubationszeit_override (doc : DMNDoc) (d : Decision)
    (h : findEpiDecision doc.decisions = some d) :
    (strContains d.documentation "Inkubationszeit" = true →
      (parseDMN doc).metadata.inkubationszeit = some d.documentation) ∧
    (strContains d.documentation "Inkubationszeit" = false →
      (parseDMN doc).metadata.inkubationszeit = (extractMetadata doc).inkubationszeit) := by
  constructor
  · intro hc
    have hne : d.documentation ≠ "" := by
      intro he
      have hnil := ne_nil_of_containsSub "Inkubationszeit".toList d.documentation.toList
        (by decide) hc
      rw [he] at hnil
      exact hnil rfl
    simp only [parseDMN, h]
    have hcond : (decide (d.documentation ≠ "") && strContains d.documentation "Inkubationszeit") = true := by
      simp [hne, hc]
    rw [if_pos hcond]
  · intro hc
    simp only [parseDMN, h]
    have hcond : ¬ ((decide (d.documentation ≠ "") && strContains d.documentation "Inkubationszeit") = true) := by
      simp [hc]
    rw [if_neg hcond]

/-- Witness for C8: a container value is overwritten by the decision's
documentation. -/
theorem inkubationszeit_override_witness :
    (parseDMN ⟨some ⟨some "K", some "E", some "S", some "V", some "alt"⟩, [],
        [⟨"d1", "epi_confirmation", "epi", "Inkubationszeit: 1-10 Tage", none, []⟩]⟩).metadata.inkubationszeit =
      some "Inkubationszeit: 1-10 Tage" :=
  (inkubationszeit_override
      ⟨some ⟨some "K", some "E", some "S", some "V", some "alt"⟩, [],
        [⟨"d1", "epi_confirmation", "epi", "Inkubationszeit: 1-10 Tage", none, []⟩]⟩
      ⟨"d1", "epi_confirmation", "epi", "Inkubationszeit: 1-10 Tage", none, []⟩
      (by decide)).1 (by decide)

/-! ## Claim C1 -/

theorem padRow_length : ∀ (cs : List String) (ws : List Nat),
    (padRow cs ws).length = cs.length := by
  intro cs
  induction cs with
  | nil => intro ws; rfl
  | cons c cs ih =>
    intro ws
    cases ws with
    | nil => simp [padRow, ih]
    | cons w ws => simp [padRow, ih]

/-- C1 counterexample: a rule with one entry under a two-column header
renders a data row with two pipes against the header row's three — the
missing trailing cell is not rendered as a padded empty cell, so the row
does not have as many pipe-delimited cells as the header row. -/
theorem short_rule_row_not_padded_cex :
    pipeCount (renderRow (ruleCells
        ⟨[⟨"i1", "A", ""⟩, ⟨"i2", "BB", ""⟩], [], [⟨["C"], []⟩]⟩ ⟨["C"], []⟩)) = 2 ∧
    pipeCount (renderRow (headerCells
        ⟨[⟨"i1", "A", ""⟩, ⟨"i2", "BB", ""⟩], [], [⟨["C"], []⟩]⟩)) = 3 ∧
    generateDecisionTableMarkdown
        (some ⟨[⟨"i1", "A", ""⟩, ⟨"i2", "BB", ""⟩], [], [⟨["C"], []⟩]⟩) "T" =
      "## T\n\n| A | BB |\n| - | -- |\n| C |\n\n" := by
  decide

/-- C1 (amended): a rule with fewer entry strings than header columns is
rendered from exactly its own entries — the missing trailing cells are
omitted, so its row has fewer pipe-delimited cells than the header row. -/
theorem short_rule_row_omits_missing_cells (dt : DecisionTable) (rule : Rule) :
    (ruleCells dt rule).length = (rule.inputEntries ++ rule.outputEntries).length ∧
    (headerCells dt).length = (headersOf dt).length ∧
    ((rule.inputEntries ++ rule.outputEntries).length < (headersOf dt).length →
      (ruleCells dt rule).length < (headerCells dt).length) := by
  refine ⟨padRow_length _ _, padRow_length _ _, ?_⟩
  intro h
  rw [ruleCells, headerCells, padRow_length, padRow_length]
  exact h

/-- Witness for amended C1. -/
theorem short_rule_row_omits_missing_cells_witness :
    (ruleCells ⟨[⟨"i1", "A", ""⟩, ⟨"i2", "BB", ""⟩], [], [⟨["C"], []⟩]⟩ ⟨["C"], []⟩).length <
      (headerCells ⟨[⟨"i1", "A", ""⟩, ⟨"i2", "BB", ""⟩], [], [⟨["C"], []⟩]⟩).length :=
  (short_rule_row_omits_missing_cells _ _).2.2 (by decide)

/-! ## Claim C6 -/

theorem updateWidths_getD : ∀ (ws : List Nat) (cs : List String) (i : Nat),
    i < ws.length →
    (updateWidths ws cs).getD i 0 = Nat.max (ws.getD i 0) ((cs.getD i "").length) := by
  intro ws
  induction ws with
  | nil => intro cs i hi; simp at hi
  | cons w ws ih =>
    intro cs i hi
    cases cs with
    | nil =>
      simp only [updateWidths]
      cases i <;> simp
    | cons c cs =>
      cases i with
      | zero => simp [updateWidths]
      | succ i =>
        simp only [updateWidths, List.getD_cons_succ]
        exact ih cs i (Nat.lt_of_succ_lt_succ hi)

theorem widths_getD_foldl : ∀ (rules : List Rule) (ws : List Nat) (i : Nat),
    i < ws.length →
    ((rules.foldl (fun ws rule => updateWidths ws (rule.inputEntries ++ rule.outputEntries)) ws).getD i 0) =
      (rules.map (fun r => ((r.inputEntries ++ r.outputEntries).getD i "").length)).foldl
        Nat.max (ws.getD i 0) := by
  intro rules
  induction rules with
  | nil => intro ws i _; rfl
  | cons r rs ih =>
    intro ws i hi
    simp only [List.foldl_cons, List.map_cons]
    rw [ih _ i (by rw [updateWidths_length]; exact hi), updateWidths_getD _ _ _ hi]

theorem map_length_getD : ∀ (headers : List String) (i : Nat), i < headers.length →
    (headers.map String.length).getD i 0 = (headers.getD i "").length := by
  intro headers
  induction headers with
  | nil => intro i hi; simp at hi
  | cons h hs ih =>
    intro i hi
    cases i with
    | zero => rfl
    | succ i =>
      simp only [List.map_cons, List.getD_cons_succ]
      exact ih i (Nat.lt_of_succ_lt_succ hi)

/-- C6: each column's width is the maximum of the header text's length and
the lengths of every cell occupying that column across all rules; every
cell is right-padded with spaces to its column width; and on the spec's
concrete example (headers `A`, `BB`; one rule `C`, `DDDD`) the widths are
1 and 4 and the pipe separators of all three rows sit at the same
positions. -/
theorem column_width_max_and_alignment :
    (∀ (headers : List String) (rules : List Rule) (i : Nat), i < headers.length →
      (calculateColumnWidths headers rules).getD i 0 =
        (rules.map (fun r => ((r.inputEntries ++ r.outputEntries).getD i "").length)).foldl
          Nat.max ((headers.getD i "").length)) ∧
    (∀ (text : String) (width : Nat),
      padCell text width = text ++ String.mk (List.replicate (width - text.length) ' ') ∧
      (padCell text width).length = Nat.max width text.length) ∧
    calculateColumnWidths ["A", "BB"] [⟨["C", "DDDD"], []⟩] = [1, 4] ∧
    generateDecisionTableMarkdown
        (some ⟨[⟨"i1", "A", ""⟩, ⟨"i2", "BB", ""⟩], [], [⟨["C", "DDDD"], []⟩]⟩) "Tabelle" =
      "## Tabelle\n\n| A | BB   |\n| - | ---- |\n| C | DDDD |\n\n" ∧
    pipePositions "| A | BB   |" = [0, 4, 11] ∧
    pipePositions "| - | ---- |" = [0, 4, 11] ∧
    pipePositions "| C | DDDD |" = [0, 4, 11] := by
  refine ⟨?_, ?_, by decide, by decide, by decide, by decide, by decide⟩
  · intro headers rules i hi
    unfold calculateColumnWidths
    rw [widths_getD_foldl _ _ i (by simpa using hi), map_length_getD _ _ hi]
  · intro text width
    refine ⟨rfl, ?_⟩
    have h1 : (padCell text width).length = text.length + (width - text.length) := by
      simp [padCell, String.length_append]
    rw [h1]
    rcases Nat.le_total width text.length with hle | hle
    · rw [Nat.sub_eq_zero_of_le hle, Nat.add_zero]
      exact (Nat.max_eq_right hle).symm
    · calc text.length + (width - text.length) = width := by omega
        _ = Nat.max width text.length := (Nat.max_eq_left hle).symm

/-- Witness for C6's width formula at the spec's concrete example. -/
theorem column_width_max_and_alignment_witness :
    (calculateColumnWidths ["A", "BB"] [⟨["C", "DDDD"], []⟩]).getD 1 0 =
      ([(⟨["C", "DDDD"], []⟩ : Rule)].map
        (fun r => ((r.inputEntries ++ r.outputEntries).getD 1 "").length)).foldl
        Nat.max ((["A", "BB"].getD 1 "").length) :=
  column_width_max_and_alignment.1 ["A", "BB"] [⟨["C", "DDDD"], []⟩] 1 (by decide)

/-! ## Claim C3 -/

/-- Lines handed to the bullet tests have already been trimmed, so the
sub-bullet pattern (leading whitespace then a glyph) can never match. -/
theorem matchesSubBullet_jsTrim (s : String) : matchesSubBullet (jsTrim s) = false := by
  simp only [matchesSubBullet]
  rw [show (jsTrim s).toList = trimChars s.toList from rfl, trimChars_takeWhile]
  rfl

/-- C3: a section line with leading whitespace before a dash is rendered
as a FIRST-level list item (the renderer trims every line before the
bullet tests), and the second-level branch is unreachable — no parsed
documentation ever contains a level-1 bullet. -/
theorem indented_bullet_renders_first_level :
    parseDocumentation "  - Fieber" = [Block.bullet 0 [plainRun "Fieber"]] ∧
    ∀ text : String, (parseDocumentation text).countP isSubBullet = 0 := by
  constructor
  · decide
  · intro text
    simp only [parseDocumentation]
    rw [List.countP_eq_zero]
    intro b hb
    rw [List.mem_map] at hb
    obtain ⟨line, hline, hb⟩ := hb
    rw [List.mem_filter] at hline
    obtain ⟨hmem, _⟩ := hline
    rw [List.mem_map] at hmem
    obtain ⟨l0, _, hl0⟩ := hmem
    subst hl0
    subst hb
    by_cases h1 : (strStartsWith (jsTrim l0) "- " || strStartsWith (jsTrim l0) "• ") = true
    · rw [if_pos h1]
      simp [isSubBullet, createBullet]
    · rw [if_neg h1, if_neg (by simp [matchesSubBullet_jsTrim])]
      simp [isSubBullet, createParagraph]

/-! ## Claim C2 -/

/-- C2 counterexample: with every optional section absent, the renderer
still emits the classification heading after the title, so the legal-basis
heading is not the only heading beyond the title. -/
theorem empty_model_headings_cex :
    (generateWordDocument
        ⟨⟨some "X", some "Y", some "2024", some "1", none⟩,
         none, none, none, none, none, none, ⟨none, none⟩, []⟩).filter isHeading =
      [createBlueHeading "Über die zuständige Landesbehörde an das RKI zu übermittelnder Fall" 1,
       createBlueHeading "Gesetzliche Grundlage" 1] ∧
    [createBlueHeading "Über die zuständige Landesbehörde an das RKI zu übermittelnder Fall" 1,
     createBlueHeading "Gesetzliche Grundlage" 1] ≠
      [createBlueHeading "Gesetzliche Grundlage" 1] := by
  decide

/-- C2 (amended): for a model whose metadata has disease, pathogen,
reference date and version present and whose optional sections and
classification decision are all absent, the block sequence is exactly the
title block (combining disease and pathogen in parentheses) followed by
two headings: the mandatory classification heading and the mandatory
legal-basis heading, in that order. -/
theorem empty_model_title_and_mandatory_headings
    (d : DMNData) (k e : String)
    (hk : d.metadata.krankheit = some k) (hkne : k ≠ "")
    (he : d.metadata.erreger = some e) (hene : e ≠ "")
    (_hs : d.metadata.stand.isSome = true) (_hv : d.metadata.version.isSome = true)
    (h1 : d.klinischesBild = none) (h2 : d.labordiagnostik = none)
    (h3 : d.epidemiologie = none) (h4 : d.fallkategorien = none)
    (h5 : d.zusatzinfo = none) (h6 : d.referenzdefinition = none)
    (h7 : d.gesetzlicheGrundlage.meldepflicht = none)
    (h8 : d.gesetzlicheGrundlage.uebermittlung = none) :
    generateWordDocument d =
      [createTitle k e,
       createBlueHeading "Über die zuständige Landesbehörde an das RKI zu übermittelnder Fall" 1,
       createBlueHeading "Gesetzliche Grundlage" 1] ∧
    runsChars (runsOf (createTitle k e)) = (k ++ " (" ++ e ++ ")").toList := by
  constructor
  · simp [generateWordDocument, hk, he, h1, h2, h3, h4, h5, h6, h7, h8,
      jsTruthy, hkne, hene, createFallkategorien]
  · simp [runsChars, runsOf, createTitle]

/-- Witness for amended C2. -/
theorem empty_model_title_and_mandatory_headings_witness :
    generateWordDocument
        ⟨⟨some "X", some "Y", some "2024", some "1", none⟩,
         none, none, none, none, none, none, ⟨none, none⟩, []⟩ =
      [createTitle "X" "Y",
       createBlueHeading "Über die zuständige Landesbehörde an das RKI zu übermittelnder Fall" 1,
       createBlueHeading "Gesetzliche Grundlage" 1] :=
  (empty_model_title_and_mandatory_headings
    ⟨⟨some "X", some "Y", some "2024", some "1", none⟩,
     none, none, none, none, none, none, ⟨none, none⟩, []⟩ "X" "Y"
    rfl (by decide) rfl (by decide) rfl rfl rfl rfl rfl rfl rfl rfl rfl rfl).1

/-! ## Claim C4 -/

theorem labelTexts_append (a b : List Block) :
    labelTexts (a ++ b) = labelTexts a ++ labelTexts b :=
  List.filterMap_append a b _

theorem labelTexts_fallkategorieBlocks (i : Nat) (r : Rule) :
    labelTexts (fallkategorieBlocks i r) = [String.mk [Char.ofNat (65 + i)] ++ ". "] := by
  unfold fallkategorieBlocks labelTexts
  split <;> rfl

theorem labelTexts_flatten_fallkategorie : ∀ l : List (Nat × Rule),
    labelTexts ((l.map (fun p => fallkategorieBlocks p.1 p.2)).flatten) =
      l.map (fun p => String.mk [Char.ofNat (65 + p.1)] ++ ". ") := by
  intro l
  induction l with
  | nil => rfl
  | cons p l ih =>
    simp only [List.map_cons, List.flatten_cons]
    rw [labelTexts_append, labelTexts_fallkategorieBlocks, ih]
    rfl

/-- C4: for a classification decision table with N rules the category
enumeration emits exactly N labelled blocks, whose letters are
`fromCharCode(65 + index)` in rule order — independent of any letter in
the rules' own output entries; each label is paired with the canned
description when its letter is among A–E (indices 0–4), else with the
rule's first output entry, and a non-empty second output entry is emitted
as a following paragraph. -/
theorem fallkategorien_sequential_labels (fk : Decision) (dt : DecisionTable)
    (h : fk.decisionTable = some dt) :
    createFallkategorien (some fk) =
      (dt.rules.enum.map (fun p => fallkategorieBlocks p.1 p.2)).flatten ∧
    labelTexts (createFallkategorien (some fk)) =
      (List.range dt.rules.length).map (fun i => String.mk [Char.ofNat (65 + i)] ++ ". ") ∧
    (∀ (i : Nat) (rule : Rule), i ≤ 25 →
      fallkategorieBlocks i rule =
        Block.para [⟨String.mk [Char.ofNat (65 + i)] ++ ". ", true, false⟩,
          ⟨if i ≤ 4 then categoriesStr (Char.ofNat (65 + i))
            else rule.outputEntries.getD 0 "", true, false⟩]
        :: (if rule.outputEntries.length > 1 && rule.outputEntries.getD 1 "" ≠ "" then
              [Block.para [plainRun (rule.outputEntries.getD 1 "")]]
            else [])) := by
  refine ⟨?_, ?_, ?_⟩
  · rw [createFallkategorien, h]
  · rw [createFallkategorien, h, labelTexts_flatten_fallkategorie]
    have hcomp : dt.rules.enum.map (fun p => String.mk [Char.ofNat (65 + p.1)] ++ ". ") =
        (dt.rules.enum.map Prod.fst).map (fun i => String.mk [Char.ofNat (65 + i)] ++ ". ") := by
      rw [List.map_map]
      rfl
    rw [hcomp, List.enum_map_fst]
  · intro i rule hi
    have hlab : jsOr (categoriesStr (Char.ofNat (65 + i))) (rule.outputEntries.getD 0 "") =
        (if i ≤ 4 then categoriesStr (Char.ofNat (65 + i)) else rule.outputEntries.getD 0 "") := by
      interval_cases i <;> simp [jsOr, categoriesStr]
    simp only [fallkategorieBlocks]
    rw [hlab]
    rfl

/-- Witness for C4: six rules give labels A–F, the sixth beyond the canned
range. -/
theorem fallkategorien_sequential_labels_witness :
    labelTexts (createFallkategorien (some ⟨"d1", "fallklassifikation", "F", "",
        some ⟨[], [], [⟨[], ["E", "d1"]⟩, ⟨[], ["D"]⟩, ⟨[], []⟩, ⟨[], []⟩, ⟨[], []⟩,
          ⟨[], ["Sonderkategorie"]⟩]⟩, []⟩)) =
      ["A. ", "B. ", "C. ", "D. ", "E. ", "F. "] :=
  ((fallkategorien_sequential_labels
      ⟨"d1", "fallklassifikation", "F", "",
        some ⟨[], [], [⟨[], ["E", "d1"]⟩, ⟨[], ["D"]⟩, ⟨[], []⟩, ⟨[], []⟩, ⟨[], []⟩,
          ⟨[], ["Sonderkategorie"]⟩]⟩, []⟩
      ⟨[], [], [⟨[], ["E", "d1"]⟩, ⟨[], ["D"]⟩, ⟨[], []⟩, ⟨[], []⟩, ⟨[], []⟩,
          ⟨[], ["Sonderkategorie"]⟩]⟩ rfl).2.1).trans (by decide)

/-! ## Claim C5 -/

theorem runsChars_append (a b : List Run) :
    runsChars (a ++ b) = runsChars a ++ runsChars b := by
  simp [runsChars]

/-- Character-content invariant of the keyword fold: the collected runs
followed by the remaining text always spell the original text. -/
theorem emph_foldl_chars : ∀ (kws : List (List Char)) (rs : List Run) (cur : List Char),
    runsChars ((kws.foldl emphStep (rs, cur)).1) ++ (kws.foldl emphStep (rs, cur)).2 =
      runsChars rs ++ cur := by
  intro kws
  induction kws with
  | nil => intro rs cur; rfl
  | cons kw kws ih =>
    intro rs cur
    rw [List.foldl_cons]
    by_cases h : containsSub kw cur = true
    · have hstep : emphStep (rs, cur) kw =
          (rs ++ [plainRun (String.mk (splitFirst kw cur).1), ⟨String.mk kw, true, false⟩],
           (splitFirst kw cur).2) := by
        simp only [emphStep]
        rw [if_pos h]
      rw [hstep, ih, runsChars_append]
      have hnew : runsChars [plainRun (String.mk (splitFirst kw cur).1), ⟨String.mk kw, true, false⟩] =
          (splitFirst kw cur).1 ++ kw := by
        simp [runsChars, plainRun]
      rw [hnew, List.append_assoc, List.append_assoc]
      congr 1
      rw [← List.append_assoc]
      exact splitFirst_append kw cur h
    · have hstep : emphStep (rs, cur) kw = (rs, cur) := by
        simp only [emphStep]
        rw [if_neg h]
      rw [hstep, ih]

/-- Structure invariant of the keyword fold: already-collected runs are
kept, and every bold run the fold adds carries one of the folded keywords
as its text. -/
theorem emph_foldl_tail : ∀ (kws : List (List Char)) (rs : List Run) (cur : List Char),
    ∃ tail, (kws.foldl emphStep (rs, cur)).1 = rs ++ tail ∧
      ∀ r ∈ tail, r.bold = true → ∃ kw ∈ kws, r.text = String.mk kw := by
  intro kws
  induction kws with
  | nil =>
    intro rs cur
    exact ⟨[], by simp, by simp⟩
  | cons kw kws ih =>
    intro rs cur
    rw [List.foldl_cons]
    by_cases h : containsSub kw cur = true
    · have hstep : emphStep (rs, cur) kw =
          (rs ++ [plainRun (String.mk (splitFirst kw cur).1), ⟨String.mk kw, true, false⟩],
           (splitFirst kw cur).2) := by
        simp only [emphStep]
        rw [if_pos h]
      rw [hstep]
      obtain ⟨tail, ht1, ht2⟩ :=
        ih (rs ++ [plainRun (String.mk (splitFirst kw cur).1), ⟨String.mk kw, true, false⟩])
          (splitFirst kw cur).2
      refine ⟨[plainRun (String.mk (splitFirst kw cur).1), ⟨String.mk kw, true, false⟩] ++ tail,
        by rw [ht1, List.append_assoc], ?_⟩
      intro r hr hb
      rcases List.mem_append.mp hr with hr | hr
      · simp only [List.mem_cons, List.not_mem_nil, or_false] at hr
        rcases hr with hr | hr
        · rw [hr] at hb
          simp [plainRun] at hb
        · rw [hr]
          exact ⟨kw, List.mem_cons_self kw kws, rfl⟩
      · obtain ⟨kw2, hkw2, htext⟩ := ht2 r hr hb
        exact ⟨kw2, List.mem_cons_of_mem kw hkw2, htext⟩
    · have hstep : emphStep (rs, cur) kw = (rs, cur) := by
        simp only [emphStep]
        rw [if_neg h]
      rw [hstep]
      obtain ⟨tail, ht1, ht2⟩ := ih rs cur
      refine ⟨tail, ht1, ?_⟩
      intro r hr hb
      obtain ⟨kw2, hkw2, htext⟩ := ht2 r hr hb
      exact ⟨kw2, List.mem_cons_of_mem kw hkw2, htext⟩

/-- C5: a paragraph line containing the disjunction keyword `ODER` is
rendered with the keyword as a distinct bold run, the concatenated run
texts spell the line verbatim, exactly one bold `ODER` run is produced,
and the run preceding it is the text before the keyword's leftmost
occurrence. -/
theorem disjunction_keyword_emphasis (line : String)
    (h : containsSub "ODER".toList line.toList = true) :
    runsChars (emphasizeLine line) = line.toList ∧
    (∃ rest, emphasizeLine line =
        plainRun (String.mk (splitFirst "ODER".toList line.toList).1) ::
          ⟨"ODER", true, false⟩ :: rest) ∧
    (emphasizeLine line).countP (fun r => r.bold && r.text == "ODER") = 1 ∧
    (∀ p q : List Char, line.toList = p ++ "ODER".toList ++ q →
      (splitFirst "ODER".toList line.toList).1.length ≤ p.length) := by
  have hkws : boldKeywords.map String.toList = "ODER".toList ::
      ["mindestens einer".toList, "mindestens eines".toList,
       "mindestens eine".toList, "definiert als".toList] := rfl
  have hstep : emphStep ([], line.toList) "ODER".toList =
      ([plainRun (String.mk (splitFirst "ODER".toList line.toList).1), ⟨"ODER", true, false⟩],
       (splitFirst "ODER".toList line.toList).2) := by
    simp only [emphStep]
    rw [if_pos h]
    rfl
  obtain ⟨tail, ht1, ht2⟩ :=
    emph_foldl_tail
      ["mindestens einer".toList, "mindestens eines".toList,
       "mindestens eine".toList, "definiert als".toList]
      [plainRun (String.mk (splitFirst "ODER".toList line.toList).1), ⟨"ODER", true, false⟩]
      (splitFirst "ODER".toList line.toList).2
  have hres1 : ((boldKeywords.map String.toList).foldl emphStep ([], line.toList)).1 =
      plainRun (String.mk (splitFirst "ODER".toList line.toList).1) ::
        ⟨"ODER", true, false⟩ :: tail := by
    rw [hkws, List.foldl_cons, hstep, ht1]
    rfl
  have hne : ((boldKeywords.map String.toList).foldl emphStep ([], line.toList)).1 ≠ [] := by
    rw [hres1]
    simp
  have hfin : emphasizeLine line =
      ((boldKeywords.map String.toList).foldl emphStep ([], line.toList)).1 ++
        [plainRun (String.mk ((boldKeywords.map String.toList).foldl emphStep ([], line.toList)).2)] := by
    simp only [emphasizeLine]
    rw [if_neg hne]
  refine ⟨?_, ?_, ?_, ?_⟩
  · rw [hfin, runsChars_append]
    have hlast : runsChars
        [plainRun (String.mk ((boldKeywords.map String.toList).foldl emphStep ([], line.toList)).2)] =
        ((boldKeywords.map String.toList).foldl emphStep ([], line.toList)).2 := by
      simp [runsChars, plainRun]
    rw [hlast]
    have := emph_foldl_chars (boldKeywords.map String.toList) [] line.toList
    rw [this]
    rfl
  · refine ⟨tail ++ [plainRun (String.mk ((boldKeywords.map String.toList).foldl emphStep ([], line.toList)).2)], ?_⟩
    rw [hfin, hres1]
    rfl
  · rw [hfin, hres1]
    have htailz : tail.countP (fun r => r.bold && r.text == "ODER") = 0 := by
      rw [List.countP_eq_zero]
      intro r hr hcontra
      rw [Bool.and_eq_true] at hcontra
      obtain ⟨kw2, hkw2, htext⟩ := ht2 r hr hcontra.1
      have heq : r.text = "ODER" := by
        have := hcontra.2
        simpa using this
      rw [heq] at htext
      fin_cases hkw2 <;> exact absurd htext (by decide)
    simp [List.countP_cons, List.countP_append, htailz, plainRun]
  · intro p q hpq
    exact splitFirst_leftmost "ODER".toList p line.toList q hpq

/-- Witness for C5 on a line with two occurrences of the keyword. -/
theorem disjunction_keyword_emphasis_witness :
    (emphasizeLine "a ODER b ODER c").countP (fun r => r.bold && r.text == "ODER") = 1 :=
  (disjunction_keyword_emphasis "a ODER b ODER c" (by decide)).2.2.1

end Epilogic
